import Mathlib

/-!
Shallow embedding of the repository's periodic-publisher components.

The repository has three Python source files:

* `Instrument Control/random_ioc.py` — class `RandomValueIOC`: a pythonSoftIOC
  server whose enable/disable requests (from the Tk UI thread via
  `start()`/`stop()`, and from the EPICS `Enable` record's `on_update`) are
  marshalled into a single asyncio event loop by `_set_enabled`; the
  production loop `_run_updates` is an asyncio task emitting one random
  reading per period.
* `Instrument Control/random_gui.py` — class `CaprotoSubscriber` (a caproto
  channel-access client wrapper with `read_now`, `_callback`, `stop`) and
  class `SubscriberTkUI` (a Tk polling loop `_schedule_poll`/`_poll_once`
  and the cross-thread marshaling `_on_update_from_pv` via `after(0, ...)`).
* `random_ioc.py` — class `RandomIOC`: a standalone caproto server whose
  startup coroutine writes a random value every 0.1 s forever.

Each component is embedded as an explicit state type plus a step function;
the asyncio loop's serialization is modelled by letting exactly one action
run at a time, with the `call_soon_threadsafe` queue made explicit.
-/

namespace PVDemo

/-- A Python float as used by these programs: either a rational number or
`nan` (produced by `float('nan')` in `CaprotoSubscriber.read_now` when the
response has no data). -/
inductive PyFloat
  | num (q : ℚ)
  | nan
deriving DecidableEq, Repr

/-- The `PVUpdate` dataclass of `random_gui.py`: a value with a timestamp. -/
structure PVUpdate where
  value : PyFloat
  ts : ℚ
deriving DecidableEq, Repr

namespace RandomValueIOC

/-- The status of an asyncio task created by `_set_enabled`'s `_apply`
closure: `running` (alive, no cancellation requested), `cancelRequested`
(`task.cancel()` was called; `task.done()` is still `False` until the
`CancelledError` is delivered at the task's next suspension point), or
`finished` (`task.done()` is `True`). -/
inductive TaskStatus
  | running
  | cancelRequested
  | finished
deriving DecidableEq, Repr

/-- A task is alive while it is not done. -/
def TaskStatus.alive : TaskStatus → Bool
  | .running => true
  | .cancelRequested => true
  | .finished => false

/-- Observable outputs of the `RandomValueIOC` machine. `reading v` is one
tick of `_run_updates` (the `random_ai.set(val)` plus the UI value
callback); `sleepFor d` is the `await asyncio.sleep(self.period)` that
follows it; `stateChanged b` marks the point inside `_apply` where the
`self._enabled` flag actually flips; `stopReturned` marks the point where a
`_set_enabled(False)` call (hence `stop()`) returns to its caller. -/
inductive Out
  | reading (v : ℚ)
  | sleepFor (d : ℚ)
  | stateChanged (b : Bool)
  | stopReturned
deriving DecidableEq, Repr

/-- The state of a `RandomValueIOC` instance together with the asyncio
machinery it relies on: `period` is `self.period`; `enabled` is
`self._enabled`; `tasks` records the status of every task ever created by
`_apply`, in creation order; `taskRef` is the index currently held in
`self._task` (`none` for `None`); `pending` is the FIFO queue of `_apply`
thunks posted with `loop.call_soon_threadsafe`; `draws` counts calls to
`random.random()` so far (the random stream is a parameter of the step
function). -/
structure State where
  period : ℚ
  enabled : Bool
  tasks : List TaskStatus
  taskRef : Option Nat
  pending : List Bool
  draws : Nat
deriving DecidableEq, Repr

/-- The state right after `RandomValueIOC.__init__(prefix, period_s)`:
`self._enabled = False`, `self._task = None`, nothing queued. The period is
stored unchanged — the constructor performs no validation of `period_s`. -/
def init (period_s : ℚ) : State :=
  { period := period_s, enabled := false, tasks := [], taskRef := none,
    pending := [], draws := 0 }

/-- The status of the task referenced by `self._task`, `finished` standing
in for an absent reference when looking up (an out-of-range index never
occurs). -/
def refStatus (s : State) : Option TaskStatus :=
  s.taskRef.bind fun i => s.tasks[i]?

/-- The body of the `_apply` closure inside `RandomValueIOC._set_enabled`,
which always runs on the asyncio loop thread:

* if `enable and not self._enabled`: set `self._enabled = True`, and if
  `not self._task or self._task.done()` create a fresh update task
  (`asyncio.create_task(self._run_updates())`) and store it in `self._task`;
* elif `not enable and self._enabled`: set `self._enabled = False`, and if
  `self._task and not self._task.done()` call `self._task.cancel()`;
* otherwise do nothing.

A `stateChanged` output marks each actual flip of `self._enabled`. -/
def apply (s : State) (enable : Bool) : State × List Out :=
  if enable && !s.enabled then
    if (refStatus s).getD .finished |>.alive then
      ({ s with enabled := true }, [.stateChanged true])
    else
      ({ s with
          enabled := true
          tasks := s.tasks ++ [TaskStatus.running]
          taskRef := some s.tasks.length },
       [.stateChanged true])
  else if !enable && s.enabled then
    if (refStatus s).getD .finished |>.alive then
      match s.taskRef with
      | none => ({ s with enabled := false }, [.stateChanged false])
      | some i =>
        ({ s with
            enabled := false
            tasks := s.tasks.set i TaskStatus.cancelRequested },
         [.stateChanged false])
    else
      ({ s with enabled := false }, [.stateChanged false])
  else
    (s, [])

/-- The actions that can interleave. `callSet b onLoop` is a call of
`_set_enabled(b)` — from `start()`/`stop()` on the UI thread
(`onLoop = false`: the `_apply` thunk is queued with
`call_soon_threadsafe` and the call returns at once) or from the `Enable`
record's `on_update` on the loop thread (`onLoop = true`: `_apply` runs
synchronously). `runPending` is the event loop executing the oldest queued
thunk. `taskStep i` is asyncio resuming task `i`: a cancelled task raises
`CancelledError` at its suspension point (caught by `_run_updates`, which
then finishes); a running task re-checks `while self._enabled`, and either
emits one reading and sleeps again, or falls off the loop and finishes. -/
inductive Act
  | callSet (b : Bool) (onLoop : Bool)
  | runPending
  | taskStep (i : Nat)
deriving DecidableEq, Repr

/-- One serialized step of the system, parameterized by the stream of
values `random.random()` returns (`rng n` is the value of the `n`-th
draw). -/
def step (rng : ℕ → ℚ) (s : State) : Act → State × List Out
  | .callSet b onLoop =>
    let r := if onLoop then apply s b
             else ({ s with pending := s.pending ++ [b] }, [])
    (r.1, r.2 ++ if b then [] else [.stopReturned])
  | .runPending =>
    match s.pending with
    | [] => (s, [])
    | b :: rest => apply { s with pending := rest } b
  | .taskStep i =>
    match s.tasks[i]? with
    | some .running =>
      if s.enabled then
        ({ s with draws := s.draws + 1 },
         [.reading (rng s.draws), .sleepFor s.period])
      else
        ({ s with tasks := s.tasks.set i .finished }, [])
    | some .cancelRequested => ({ s with tasks := s.tasks.set i .finished }, [])
    | _ => (s, [])

/-- Run a sequence of interleaved actions, concatenating outputs. -/
def run (rng : ℕ → ℚ) (s : State) : List Act → State × List Out
  | [] => (s, [])
  | a :: as =>
    let r := step rng s a
    let r2 := run rng r.1 as
    (r2.1, r.2 ++ r2.2)

/-- Number of tasks that are alive (created and not yet done). -/
def aliveCount (s : State) : ℕ := s.tasks.countP (·.alive)

/-- The structural invariant of the controller: every task that is still
alive is the one currently referenced by `self._task`. -/
def inv (s : State) : Prop :=
  ∀ (i : ℕ) (t : TaskStatus), s.tasks[i]? = some t → t.alive = true →
    s.taskRef = some i

/-- Whether the task referenced by `self._task` exists and is not done —
the condition `self._task and not self._task.done()` in `_apply`. -/
def aliveRef (s : State) : Bool := ((refStatus s).getD .finished).alive

/-- Whether an output is a Reading delivered to the consumer. -/
def Out.isReading : Out → Bool
  | .reading _ => true
  | _ => false

/-- Whether an action carries an enable request (`_set_enabled(True)`). -/
def Act.enables : Act → Bool
  | .callSet b _ => b
  | _ => false

/-- Whether some `reading` output occurs strictly after some `stopReturned`
marker in an output trace. -/
def readingAfterStop : List Out → Bool
  | [] => false
  | .stopReturned :: rest => rest.any Out.isReading || readingAfterStop rest
  | _ :: rest => readingAfterStop rest

/-- A state in which the disable has fully taken effect: `self._enabled` is
`False` and no enable request is still sitting in the
`call_soon_threadsafe` queue. -/
def quiesced (s : State) : Prop :=
  s.enabled = false ∧ ∀ b ∈ s.pending, b = false

end RandomValueIOC

namespace CaprotoSubscriber

/-- A channel-access read response as `CaprotoSubscriber.read_now` consumes
it: `resp.data` (a possibly-empty sequence of numbers) and
`resp.metadata.timestamp` (possibly absent). -/
structure ReadResp where
  data : List ℚ
  tsMeta : Option ℚ
deriving DecidableEq, Repr

/-- An opaque Python exception (the code catches bare `Exception`, so its
identity never matters). -/
inductive PyExc
  | exc
deriving DecidableEq, Repr

/-- `CaprotoSubscriber.read_now` with the exception flow explicit:
`chanPresent` is whether `self._chan` is not `None` (it is `None` before
`start()` succeeds); `readCall` is the outcome of the boundary call
`self._chan.read(data_type='time')`, which may raise; `now` is
`time.time()`. The `try` body computes the value (`float(resp.data[0])`
when `resp.data` is non-empty, `float('nan')` otherwise) and the timestamp
(`resp.metadata.timestamp` if present, else `time.time()`); the
`except Exception` clause turns any raise into `return None`. -/
def read_nowE (chanPresent : Bool) (readCall : Except PyExc ReadResp)
    (now : ℚ) : Except PyExc (Option PVUpdate) :=
  if chanPresent then
    match readCall with
    | .error _ => .ok none
    | .ok resp =>
      .ok (some { value := match resp.data with
                           | [] => PyFloat.nan
                           | v :: _ => PyFloat.num v,
                  ts := resp.tsMeta.getD now })
  else .ok none

/-- The value `read_now` hands back to its caller. -/
def read_now (chanPresent : Bool) (readCall : Except PyExc ReadResp)
    (now : ℚ) : Option PVUpdate :=
  match read_nowE chanPresent readCall now with
  | .ok v => v
  | .error _ => none

/-- The fields of a `CaprotoSubscriber` instance relevant to `stop`:
`cbId` identifies this instance's bound method `self._callback` among the
callbacks registered on the caproto subscription; `ctxPresent` /
`subPresent` are whether `self._ctx` / `self._sub` are not `None`. -/
structure State where
  cbId : ℕ
  ctxPresent : Bool
  subPresent : Bool
deriving DecidableEq, Repr

/-- `Subscription.remove_callback(cb)` at the boundary: every registry
entry for `cb` is dropped. -/
def removeCallback (registry : List ℕ) (c : ℕ) : List ℕ :=
  registry.filter (fun x => x ≠ c)

/-- `CaprotoSubscriber.stop`: if `self._sub is not None`, remove
`self._callback` from the subscription and clear `self._sub`; then
disconnect and clear `self._ctx`. Returns the new instance state and the
new callback registry of the underlying subscription. (The `on_conn(False)`
notification it also makes is irrelevant here.) -/
def stop (s : State) (registry : List ℕ) : State × List ℕ :=
  ({ s with
      subPresent := false
      ctxPresent := false },
   if s.subPresent then removeCallback registry s.cbId else registry)

/-- One CA monitor event pushed by the protocol runtime invokes every
callback currently registered on the subscription, in registration order. -/
def publishInvoked (registry : List ℕ) : List ℕ := registry

/-- `n` consecutive pushed events after the registry stopped changing: the
concatenation of their invocation lists. -/
def publishSeq (registry : List ℕ) : ℕ → List ℕ
  | 0 => []
  | n + 1 => publishInvoked registry ++ publishSeq registry n

end CaprotoSubscriber

namespace SubscriberTkUI

/-- The Tk consumer context as `SubscriberTkUI` uses it: `queue` is the
FIFO of callbacks scheduled with `self.after(0, lambda: self._apply_update(upd))`
by `_on_update_from_pv` (Tk fires same-deadline timers in registration
order); `delivered` is the log of `_apply_update` executions on the Tk
thread, oldest first. -/
structure TkState where
  queue : List PVUpdate
  delivered : List PVUpdate
deriving DecidableEq, Repr

/-- The Tk state before anything is published. -/
def tkInit : TkState := { queue := [], delivered := [] }

/-- Interleavable events on the Tk queue: `publish u` is the producer
(caproto worker thread or the polling loop) calling `_on_update_from_pv u`;
`drainOne` is the Tk main loop getting around to running the oldest
scheduled callback — its placement in the interleaving is arbitrary, which
models arbitrary consumer processing latency. -/
inductive TkAct
  | publish (u : PVUpdate)
  | drainOne
deriving DecidableEq, Repr

/-- One event on the Tk queue. -/
def tkStep (s : TkState) : TkAct → TkState
  | .publish u => { s with queue := s.queue ++ [u] }
  | .drainOne =>
    match s.queue with
    | [] => s
    | u :: rest => { queue := rest, delivered := s.delivered ++ [u] }

/-- Run a sequence of interleaved publish/drain events. -/
def tkRun (s : TkState) : List TkAct → TkState
  | [] => s
  | a :: as => tkRun (tkStep s a) as

/-- The updates published by the producer, in publication order. -/
def publishedOf : List TkAct → List PVUpdate
  | [] => []
  | .publish u :: as => u :: publishedOf as
  | .drainOne :: as => publishedOf as

/-- One firing of `_poll_once`: if `not (self._polling and self.subscriber)`
it returns at once (delivering nothing and scheduling nothing); otherwise it
calls `read_now` on the subscriber, hands a non-`None` result to
`_on_update_from_pv`, and re-arms the timer via `_schedule_poll` (which
schedules again because `self._polling` is still true). The result is the
delivered update (if any) and whether a next poll is scheduled. -/
def poll_once (polling hasSub chanPresent : Bool)
    (readCall : Except CaprotoSubscriber.PyExc CaprotoSubscriber.ReadResp)
    (now : ℚ) : Option PVUpdate × Bool :=
  if polling && hasSub then
    (CaprotoSubscriber.read_now chanPresent readCall now, polling)
  else (none, false)

/-- Repeated timer firings of `_poll_once` while no UI action intervenes
(the flags stay fixed), each with its own boundary read outcome and clock
time; the loop continues only while the previous firing re-armed the
timer. Returns the updates delivered to `_on_update_from_pv`, in order. -/
def pollRun (polling hasSub chanPresent : Bool) :
    List (Except CaprotoSubscriber.PyExc CaprotoSubscriber.ReadResp × ℚ) →
    List PVUpdate
  | [] => []
  | (r, t) :: rest =>
    let d := poll_once polling hasSub chanPresent r t
    d.1.toList ++ (if d.2 then pollRun polling hasSub chanPresent rest else [])

/-- Python's `int()` applied to a rational: truncation toward zero. -/
def pyInt (q : ℚ) : ℤ := if 0 ≤ q then ⌊q⌋ else ⌈q⌉

/-- `SubscriberTkUI._schedule_poll`: if `self._polling` is false it
schedules nothing; otherwise it arms a Tk timer for
`max(50, int(self.period_var.get() * 1000))` milliseconds. The period is
never validated or rejected — it is clamped from below at 50 ms. -/
def schedule_poll (polling : Bool) (period_s : ℚ) : Option ℤ :=
  if polling then some (max 50 (pyInt (period_s * 1000))) else none

end SubscriberTkUI

namespace RandomIOC

/-- Observable effects of the `random_value` startup coroutine of the
standalone `random_ioc.py`: a write of a fresh random value to the PV, or
an `await asyncio.sleep(0.1)`. -/
inductive StartupOut
  | write (v : ℚ)
  | sleepFor (d : ℚ)
deriving DecidableEq, Repr

/-- One iteration of the `while True:` body of `RandomIOC.random_value`
(started at IOC startup): write `np.random.random()` to the PV, then sleep
0.1 s — unconditionally. The coroutine takes no enable flag, consults no
state, and checks no cancellation signal; `i` is just the iteration
number, and `rng i` the value the `i`-th draw returns. -/
def startupStep (rng : ℕ → ℚ) (i : ℕ) : List StartupOut :=
  [.write (rng i), .sleepFor (1 / 10)]

/-- The outputs of the first `n` iterations of the startup loop. -/
def startupTrace (rng : ℕ → ℚ) : ℕ → List StartupOut
  | 0 => []
  | n + 1 => startupTrace rng n ++ startupStep rng n

/-- How many PV writes a list of outputs contains. -/
def countWrites (l : List StartupOut) : ℕ :=
  l.countP fun o => match o with | .write _ => true | _ => false

end RandomIOC

namespace RandomValueIOC

/-! ### Lemmas for the RandomValueIOC machine -/

theorem countP_le_one_of_unique (p : TaskStatus → Bool) (l : List TaskStatus)
    (h : ∀ (i j : ℕ) (ti tj : TaskStatus), l[i]? = some ti → l[j]? = some tj →
      p ti = true → p tj = true → i = j) :
    l.countP p ≤ 1 := by
  induction l with
  | nil => simp
  | cons a t ih =>
    by_cases hpa : p a = true
    · have ht : t.countP p = 0 := by
        rw [List.countP_eq_zero]
        intro x hx hpx
        obtain ⟨k, hk, hget⟩ := List.getElem_of_mem hx
        have h0 := h 0 (k + 1) a x (by simp)
          (by simpa using (hget ▸ List.getElem?_eq_getElem hk)) hpa hpx
        omega
      simp [List.countP_cons, hpa, ht]
    · have hpa2 : p a = false := by simpa using hpa
      have := ih (fun i j ti tj hti htj hpi hpj => by
        have h0 := h (i + 1) (j + 1) ti tj (by simpa using hti)
          (by simpa using htj) hpi hpj
        omega)
      simpa [List.countP_cons, hpa2] using this

theorem aliveCount_le_one_of_inv {s : State} (h : inv s) : aliveCount s ≤ 1 := by
  apply countP_le_one_of_unique
  intro i j ti tj hti htj hpi hpj
  have h1 := h i ti hti hpi
  have h2 := h j tj htj hpj
  rw [h1] at h2
  exact Option.some.inj h2

/-- The task bookkeeping of `_apply` takes one of three shapes: it leaves
`tasks`/`self._task` untouched; or (when the referenced task is absent or
done) it appends one fresh running task and references it; or (when the
referenced task is alive) it marks that task cancel-requested. -/
theorem apply_shape (s : State) (b : Bool) :
    ((apply s b).1.tasks = s.tasks ∧ (apply s b).1.taskRef = s.taskRef) ∨
    (aliveRef s = false ∧ (apply s b).1.tasks = s.tasks ++ [.running] ∧
      (apply s b).1.taskRef = some s.tasks.length) ∨
    (∃ i, s.taskRef = some i ∧
      (apply s b).1.tasks = s.tasks.set i .cancelRequested ∧
      (apply s b).1.taskRef = some i) := by
  unfold apply
  by_cases h1 : (b && !s.enabled) = true
  · rw [if_pos h1]
    by_cases h2 : ((refStatus s).getD TaskStatus.finished).alive = true
    · rw [if_pos h2]
      exact Or.inl ⟨rfl, rfl⟩
    · rw [if_neg h2]
      exact Or.inr (Or.inl ⟨by simpa using h2, rfl, rfl⟩)
  · rw [if_neg h1]
    by_cases h3 : (!b && s.enabled) = true
    · rw [if_pos h3]
      by_cases h2 : ((refStatus s).getD TaskStatus.finished).alive = true
      · rw [if_pos h2]
        cases href : s.taskRef with
        | none => exact Or.inl ⟨rfl, rfl⟩
        | some i => exact Or.inr (Or.inr ⟨i, rfl, rfl, rfl⟩)
      · rw [if_neg h2]
        exact Or.inl ⟨rfl, rfl⟩
    · rw [if_neg h3]
      exact Or.inl ⟨rfl, rfl⟩

/-- An invariant depending only on the task bookkeeping transfers along
equal `tasks` and `taskRef` fields. -/
theorem inv_of_eq {s t : State} (h : inv s) (ht : t.tasks = s.tasks)
    (hr : t.taskRef = s.taskRef) : inv t := by
  intro i x hx hal
  rw [hr]
  rw [ht] at hx
  exact h i x hx hal

/-- `_apply` preserves the invariant: a task is created only when
`self._task` is `None` or done, so no alive task is ever orphaned. -/
theorem inv_apply {s : State} (h : inv s) (b : Bool) : inv (apply s b).1 := by
  rcases apply_shape s b with ⟨ht, hr⟩ | ⟨hal, ht, hr⟩ | ⟨i, hi, ht, hr⟩
  · exact inv_of_eq h ht hr
  · -- fresh task appended: by the guard no old task is alive
    intro j x hx hjal
    rw [ht] at hx
    rw [hr]
    rcases Nat.lt_or_ge j s.tasks.length with hlt | hge
    · exfalso
      rw [List.getElem?_append, if_pos hlt] at hx
      have href := h j x hx hjal
      have : aliveRef s = true := by
        simp [aliveRef, refStatus, href, hx, hjal]
      rw [this] at hal
      exact Bool.noConfusion hal
    · rcases Nat.lt_or_ge j (s.tasks.length + 1) with hlt2 | hge2
      · have hj : j = s.tasks.length := by omega
        simp [hj]
      · exfalso
        have : (s.tasks ++ [TaskStatus.running])[j]? = none := by
          apply List.getElem?_eq_none
          simpa using hge2
        rw [this] at hx
        exact Option.noConfusion hx
  · -- referenced task marked cancel-requested (still alive, still referenced)
    intro j x hx hjal
    rw [ht] at hx
    rw [hr]
    by_cases hji : j = i
    · rw [hji]
    · rw [List.getElem?_set_ne (fun hne => hji hne.symm)] at hx
      rw [← hi]
      exact h j x hx hjal

/-- Overwriting one slot with a dead status cannot break the invariant. -/
theorem inv_set_not_alive {s t : State} (h : inv s) (i : ℕ) (st : TaskStatus)
    (hst : st.alive = false) (ht : t.tasks = s.tasks.set i st)
    (hr : t.taskRef = s.taskRef) : inv t := by
  intro j x hx hal
  rw [ht] at hx
  rw [hr]
  rw [List.getElem?_set] at hx
  by_cases hji : i = j
  · rw [if_pos hji] at hx
    by_cases hlen : i < s.tasks.length
    · rw [if_pos hlen] at hx
      cases hx
      rw [hst] at hal
      exact Bool.noConfusion hal
    · rw [if_neg hlen] at hx
      exact Option.noConfusion hx
  · rw [if_neg hji] at hx
    exact h j x hx hal

/-- Every serialized step of the system preserves the invariant. -/
theorem inv_step {s : State} (h : inv s) (rng : ℕ → ℚ) (a : Act) :
    inv (step rng s a).1 := by
  cases a with
  | callSet b onLoop =>
    cases onLoop
    · exact inv_of_eq h rfl rfl
    · exact inv_apply h b
  | runPending =>
    cases hp : s.pending with
    | nil => simpa [step, hp] using h
    | cons b rest =>
      have h2 : inv { s with pending := rest } := inv_of_eq h rfl rfl
      simpa [step, hp] using inv_apply h2 b
  | taskStep i =>
    cases ht : s.tasks[i]? with
    | none => simpa [step, ht] using h
    | some st =>
      cases st with
      | running =>
        cases he : s.enabled
        · have h2 : inv { s with tasks := s.tasks.set i TaskStatus.finished } :=
            inv_set_not_alive h i TaskStatus.finished rfl rfl rfl
          simpa [step, ht, he] using h2
        · have h2 : inv { s with draws := s.draws + 1 } := inv_of_eq h rfl rfl
          simpa [step, ht, he] using h2
      | cancelRequested =>
        have h2 : inv { s with tasks := s.tasks.set i TaskStatus.finished } :=
          inv_set_not_alive h i TaskStatus.finished rfl rfl rfl
        simpa [step, ht] using h2
      | finished => simpa [step, ht] using h

/-- Running any action sequence preserves the invariant. -/
theorem inv_run {s : State} (h : inv s) (rng : ℕ → ℚ) (acts : List Act) :
    inv (run rng s acts).1 := by
  induction acts generalizing s with
  | nil => exact h
  | cons a as ih => exact ih (inv_step h rng a)

/-- The freshly constructed instance satisfies the invariant. -/
theorem inv_init (p : ℚ) : inv (init p) := by
  intro i t hx hal
  simp [init] at hx

/-- **C1**: for every interleaving of enable/disable requests — from the UI
thread via `start()`/`stop()` (queued `_apply` thunks) and from the
`Enable` record's `on_update` (synchronous `_apply`) — at most one
production-loop task is alive at any time: the guard
`if not self._task or self._task.done()` makes `_apply` create a new
`_run_updates` task only when the previous one is done, and all `_apply`
runs are serialized on the asyncio loop. -/
theorem c1_at_most_one_production_loop (rng : ℕ → ℚ) (p : ℚ)
    (acts : List Act) : aliveCount (run rng (init p) acts).1 ≤ 1 :=
  aliveCount_le_one_of_inv (inv_run (inv_init p) rng acts)

/-- `_apply(True)` in the `Enabled` state is a no-op. -/
theorem apply_enable_enabled {s : State} (h : s.enabled = true) :
    apply s true = (s, []) := by
  unfold apply
  rw [h]
  simp

/-- `_apply(False)` in the `Disabled` state is a no-op. -/
theorem apply_disable_disabled {s : State} (h : s.enabled = false) :
    apply s false = (s, []) := by
  unfold apply
  rw [h]
  simp

/-- `_apply(False)` in the `Enabled` state flips the flag off and emits
exactly one state-change. -/
theorem apply_disable_enabled {s : State} (h : s.enabled = true) :
    (apply s false).1.enabled = false ∧
    (apply s false).1.pending = s.pending ∧
    (apply s false).2 = [Out.stateChanged false] := by
  unfold apply
  rw [h]
  by_cases h2 : ((refStatus s).getD TaskStatus.finished).alive = true
  · cases href : s.taskRef <;> simp [h2, href]
  · simp [h2]

/-- **C3**: `enable` while already `Enabled` and `disable` while already
`Disabled` are exact no-ops for `_apply` (state unchanged — no task
created or cancelled — and no event emitted), and two consecutive
`disable` requests from the `Enabled` state produce exactly one
enable-state-changed(False) event. -/
theorem c3_enable_disable_idempotent (s t : State)
    (hs : s.enabled = true) (ht : t.enabled = false) :
    apply s true = (s, []) ∧
    apply t false = (t, []) ∧
    (apply s false).2 ++ (apply (apply s false).1 false).2 =
      [Out.stateChanged false] := by
  refine ⟨apply_enable_enabled hs, apply_disable_disabled ht, ?_⟩
  obtain ⟨h1, _, h3⟩ := apply_disable_enabled hs
  rw [h3, apply_disable_disabled h1]
  rfl

/-- **C2 (counterexample)**: with period 1, the interleaving
“queue enable → apply it → one tick → `stop()` from the UI thread → one
more tick → apply the disable” emits a Reading strictly after the `stop()`
call returned: `stop()` running off the loop thread only queues its
`_apply(False)` thunk with `call_soon_threadsafe` and returns at once, so
the still-running task can tick again before the disable is applied. -/
theorem c2_reading_after_stop_counterexample :
    readingAfterStop (run (fun n => (n : ℚ) / 2) (init 1)
      [.callSet true false, .runPending, .taskStep 0,
       .callSet false false, .taskStep 0, .runPending]).2 = true := by
  rfl

/-- Once the disable has fully taken effect, any step that is not an enable
request keeps the system quiesced and emits no Reading. -/
theorem step_quiesced {s : State} (rng : ℕ → ℚ) {a : Act}
    (hq : quiesced s) (ha : a.enables = false) :
    quiesced (step rng s a).1 ∧ ∀ v : ℚ, Out.reading v ∉ (step rng s a).2 := by
  obtain ⟨he, hp⟩ := hq
  cases a with
  | callSet b onLoop =>
    have hb : b = false := by simpa [Act.enables] using ha
    subst hb
    cases onLoop with
    | true =>
      have h0 : step rng s (.callSet false true) = (s, [Out.stopReturned]) := by
        simp [step, apply_disable_disabled he]
      rw [h0]
      exact ⟨⟨he, hp⟩, by intro v; simp⟩
    | false =>
      have h0 : step rng s (.callSet false false) =
          ({ s with pending := s.pending ++ [false] }, [Out.stopReturned]) := by
        simp [step]
      rw [h0]
      refine ⟨⟨he, ?_⟩, by intro v; simp⟩
      intro b hb2
      rcases List.mem_append.mp hb2 with h | h
      · exact hp b h
      · simpa using h
  | runPending =>
    cases hpend : s.pending with
    | nil =>
      have h0 : step rng s .runPending = (s, []) := by simp [step, hpend]
      rw [h0]
      exact ⟨⟨he, hp⟩, by intro v; simp⟩
    | cons b rest =>
      have hb : b = false := hp b (by rw [hpend]; exact List.mem_cons_self b rest)
      subst hb
      have he2 : ({ s with pending := rest } : State).enabled = false := he
      have h0 : step rng s .runPending = ({ s with pending := rest }, []) := by
        simp [step, hpend, apply_disable_disabled he2]
      rw [h0]
      refine ⟨⟨he, ?_⟩, by intro v; simp⟩
      intro b2 hb2
      exact hp b2 (by rw [hpend]; exact List.mem_cons_of_mem _ hb2)
  | taskStep i =>
    cases ht : s.tasks[i]? with
    | none =>
      have h0 : step rng s (.taskStep i) = (s, []) := by simp [step, ht]
      rw [h0]
      exact ⟨⟨he, hp⟩, by intro v; simp⟩
    | some st =>
      cases st with
      | running =>
        have h0 : step rng s (.taskStep i) =
            ({ s with tasks := s.tasks.set i TaskStatus.finished }, []) := by
          simp [step, ht, he]
        rw [h0]
        exact ⟨⟨he, hp⟩, by intro v; simp⟩
      | cancelRequested =>
        have h0 : step rng s (.taskStep i) =
            ({ s with tasks := s.tasks.set i TaskStatus.finished }, []) := by
          simp [step, ht]
        rw [h0]
        exact ⟨⟨he, hp⟩, by intro v; simp⟩
      | finished =>
        have h0 : step rng s (.taskStep i) = (s, []) := by simp [step, ht]
        rw [h0]
        exact ⟨⟨he, hp⟩, by intro v; simp⟩

/-- Running any enable-free action sequence from a quiesced state emits no
Reading. -/
theorem run_quiesced (rng : ℕ → ℚ) (acts : List Act) :
    ∀ s : State, quiesced s → (∀ a ∈ acts, a.enables = false) →
    ∀ v : ℚ, Out.reading v ∉ (run rng s acts).2 := by
  induction acts with
  | nil =>
    intro s hq ha v h
    simp [run] at h
  | cons a as ih =>
    intro s hq ha v hv
    have hstep := step_quiesced rng hq (ha a (List.mem_cons_self a as))
    have htail := ih (step rng s a).1 hstep.1
      (fun x hx => ha x (List.mem_cons_of_mem a hx))
    rcases List.mem_append.mp (by simpa [run] using hv) with h | h
    · exact hstep.2 v h
    · exact htail v h

/-- **C2 (amended)**: no Reading is emitted once the marshalled
`_apply(False)` has actually run on the event loop — i.e. from any state
with `self._enabled` false and no enable request still queued, every
continuation free of enable requests emits no Reading. The original claim
(“no Reading after the `stop()` call returns”) is refuted by the
counterexample above: between `stop()` returning on the UI thread and its
queued `_apply` running, an in-flight tick may still emit. -/
theorem c2_no_reading_after_disable_applied (rng : ℕ → ℚ) (s : State)
    (acts : List Act) (hq : quiesced s)
    (ha : ∀ a ∈ acts, a.enables = false) :
    ∀ v : ℚ, Out.reading v ∉ (run rng s acts).2 :=
  run_quiesced rng acts s hq ha

/-- Witness for the amended C2 on a concrete quiesced state and trace. -/
theorem c2_no_reading_after_disable_applied_witness :
    Out.reading 0 ∉
      (run (fun _ => 0) (init 1) [Act.runPending, Act.taskStep 0]).2 :=
  c2_no_reading_after_disable_applied (fun _ => 0) (init 1)
    [Act.runPending, Act.taskStep 0] ⟨rfl, by simp [init]⟩ (by decide) 0

/-- Witness for C3 at a concrete enabled and a concrete disabled state. -/
theorem c3_enable_disable_idempotent_witness :
    apply { init 1 with enabled := true } true =
      ({ init 1 with enabled := true }, []) ∧
    apply (init 1) false = (init 1, []) ∧
    (apply { init 1 with enabled := true } false).2 ++
      (apply (apply { init 1 with enabled := true } false).1 false).2 =
      [Out.stateChanged false] :=
  c3_enable_disable_idempotent { init 1 with enabled := true } (init 1) rfl rfl

/-- `_apply` emits no Reading (only state-change events). -/
theorem apply_no_reading (s : State) (b : Bool) (v : ℚ) :
    Out.reading v ∉ (apply s b).2 := by
  unfold apply
  by_cases h1 : (b && !s.enabled) = true
  · rw [if_pos h1]
    by_cases h2 : ((refStatus s).getD TaskStatus.finished).alive = true
    · simp [h2]
    · simp [h2]
  · rw [if_neg h1]
    by_cases h3 : (!b && s.enabled) = true
    · rw [if_pos h3]
      by_cases h2 : ((refStatus s).getD TaskStatus.finished).alive = true
      · cases href : s.taskRef <;> simp [h2, href]
      · simp [h2]
    · simp [h3]

/-- Any Reading a single step emits is the current `random.random()`
draw. -/
theorem step_reading {s : State} {rng : ℕ → ℚ} {a : Act} {v : ℚ}
    (h : Out.reading v ∈ (step rng s a).2) : v = rng s.draws := by
  cases a with
  | callSet b onLoop =>
    exfalso
    cases onLoop with
    | true =>
      cases b with
      | true =>
        have he : (step rng s (Act.callSet true true)).2 =
            (apply s true).2 ++ [] := rfl
        rw [he] at h
        rcases List.mem_append.mp h with h2 | h2
        · exact apply_no_reading s true v h2
        · simp at h2
      | false =>
        have he : (step rng s (Act.callSet false true)).2 =
            (apply s false).2 ++ [Out.stopReturned] := rfl
        rw [he] at h
        rcases List.mem_append.mp h with h2 | h2
        · exact apply_no_reading s false v h2
        · simp at h2
    | false =>
      cases b with
      | true =>
        have he : (step rng s (Act.callSet true false)).2 =
            ([] : List Out) ++ [] := rfl
        rw [he] at h
        simp at h
      | false =>
        have he : (step rng s (Act.callSet false false)).2 =
            ([] : List Out) ++ [Out.stopReturned] := rfl
        rw [he] at h
        simp at h
  | runPending =>
    cases hpend : s.pending with
    | nil =>
      exfalso
      simp [step, hpend] at h
    | cons b rest =>
      exfalso
      have h2 : Out.reading v ∈ (apply { s with pending := rest } b).2 := by
        simpa [step, hpend] using h
      exact apply_no_reading _ b v h2
  | taskStep i =>
    cases ht : s.tasks[i]? with
    | none =>
      exfalso
      simp [step, ht] at h
    | some st =>
      cases st with
      | running =>
        cases he : s.enabled with
        | true =>
          have h2 : Out.reading v = Out.reading (rng s.draws) ∨
              Out.reading v = Out.sleepFor s.period := by
            simpa [step, ht, he] using h
          rcases h2 with h2 | h2
          · exact Out.reading.inj h2
          · exact absurd h2 (by simp)
        | false =>
          exfalso
          simp [step, ht, he] at h
      | cancelRequested =>
        exfalso
        simp [step, ht] at h
      | finished =>
        exfalso
        simp [step, ht] at h

/-- Every Reading in any run is some `random.random()` draw, unmodified. -/
theorem run_reading {rng : ℕ → ℚ} :
    ∀ (acts : List Act) (s : State) (v : ℚ),
    Out.reading v ∈ (run rng s acts).2 → ∃ n, v = rng n := by
  intro acts
  induction acts with
  | nil =>
    intro s v h
    simp [run] at h
  | cons a as ih =>
    intro s v h
    have he : (run rng s (a :: as)).2 =
        (step rng s a).2 ++ (run rng (step rng s a).1 as).2 := rfl
    rw [he] at h
    rcases List.mem_append.mp h with h2 | h2
    · exact ⟨s.draws, step_reading h2⟩
    · exact ih _ v h2

end RandomValueIOC

namespace SubscriberTkUI

/-! ### Lemmas for the Tk marshaling and polling loop -/

/-- Queue invariant: delivered log plus still-queued tail equals everything
published so far, in order. -/
theorem tkRun_delivered_queue (acts : List TkAct) :
    ∀ s : TkState, (tkRun s acts).delivered ++ (tkRun s acts).queue =
      s.delivered ++ s.queue ++ publishedOf acts := by
  induction acts with
  | nil =>
    intro s
    simp [tkRun, publishedOf]
  | cons a as ih =>
    intro s
    cases a with
    | publish u =>
      have he : tkRun s (.publish u :: as) =
          tkRun { s with queue := s.queue ++ [u] } as := rfl
      rw [he, ih]
      simp [publishedOf]
    | drainOne =>
      cases hq : s.queue with
      | nil =>
        have he : tkRun s (.drainOne :: as) = tkRun s as := by
          simp [tkRun, tkStep, hq]
        rw [he, ih]
        simp [publishedOf, hq]
      | cons u rest =>
        have he : tkRun s (.drainOne :: as) =
            tkRun { queue := rest, delivered := s.delivered ++ [u] } as := by
          simp [tkRun, tkStep, hq]
        rw [he, ih]
        simp [publishedOf]

/-- **C4**: the `after(0, …)` marshaling of `_on_update_from_pv` delivers
updates to `_apply_update` in exactly the order a producer published them:
for every interleaving of publications and Tk main-loop drains (the drains
placed arbitrarily, modelling arbitrary consumer latency), the delivered
log followed by the still-queued tail is exactly the published sequence —
so the delivered log is always an in-order prefix of the published
sequence, with nothing reordered, duplicated or dropped. -/
theorem c4_dispatcher_preserves_order (acts : List TkAct) :
    (tkRun tkInit acts).delivered ++ (tkRun tkInit acts).queue =
      publishedOf acts := by
  have h := tkRun_delivered_queue acts tkInit
  simpa [tkInit] using h

/-- **C5**: a failed boundary read during a tick yields `read_now = None`
(no Reading for that tick, no exception), and the polling loop survives:
after any number of consecutive failed reads, the next successful read is
still delivered to `_on_update_from_pv`. -/
theorem c5_failures_skip_then_deliver (v t now : ℚ)
    (failures :
      List (Except CaprotoSubscriber.PyExc CaprotoSubscriber.ReadResp × ℚ))
    (hf : ∀ p ∈ failures, CaprotoSubscriber.read_now true p.1 p.2 = none) :
    pollRun true true true
      (failures ++ [(Except.ok ⟨[v], some t⟩, now)]) =
      [⟨PyFloat.num v, t⟩] := by
  induction failures with
  | nil =>
    simp [pollRun, poll_once, CaprotoSubscriber.read_now,
      CaprotoSubscriber.read_nowE]
  | cons p rest ih =>
    have h1 : CaprotoSubscriber.read_now true p.1 p.2 = none :=
      hf p (List.mem_cons_self p rest)
    have htail := ih fun q hq => hf q (List.mem_cons_of_mem p hq)
    obtain ⟨r, tr⟩ := p
    simpa [pollRun, poll_once, h1] using htail

/-- Witness for C5: one raising read, then a successful one. -/
theorem c5_failures_skip_then_deliver_witness :
    pollRun true true true
      [(Except.error CaprotoSubscriber.PyExc.exc, 0),
       (Except.ok ⟨[1/2], some 2⟩, 3)] =
      [⟨PyFloat.num (1/2), 2⟩] :=
  c5_failures_skip_then_deliver (1/2) 2 3
    [(Except.error CaprotoSubscriber.PyExc.exc, 0)] (by decide)

/-- **C6 (counterexample)**: a zero period is not rejected anywhere: with
polling on, `_schedule_poll` happily schedules the next poll 50 ms out
(`max(50, int(0 * 1000)) = 50`), and the IOC constructor accepts period 0
and stores it unchanged — there is no `InvalidConfig` error path in the
code at all. -/
theorem c6_zero_period_not_rejected_counterexample :
    schedule_poll true 0 = some 50 ∧ (RandomValueIOC.init 0).period = 0 := by
  constructor
  · norm_num [schedule_poll, pyInt]
  · rfl

/-- **C6 (amended)**: zero or negative Clock periods are accepted, not
rejected: the GUI polling loop silently clamps the delay from below to
50 ms (for every period `p ≤ 0` the scheduled delay is exactly 50 ms), and
`RandomValueIOC.__init__` stores any period unchanged for direct use by
`asyncio.sleep`. -/
theorem c6_nonpositive_period_clamped (p : ℚ) (hp : p ≤ 0) :
    schedule_poll true p = some 50 ∧ (RandomValueIOC.init p).period = p := by
  refine ⟨?_, rfl⟩
  have h1 : pyInt (p * 1000) ≤ 0 := by
    unfold pyInt
    by_cases h : 0 ≤ p * 1000
    · have h0 : p * 1000 = 0 := le_antisymm (by nlinarith) h
      rw [if_pos h, h0]
      simp
    · rw [if_neg h, Int.ceil_le]
      push_cast
      exact le_of_not_le h
  have h2 : max 50 (pyInt (p * 1000)) = 50 :=
    max_eq_left (le_trans h1 (by norm_num))
  simp [schedule_poll, h2]

/-- Witness for the amended C6 at period −1. -/
theorem c6_nonpositive_period_clamped_witness :
    schedule_poll true (-1) = some 50 ∧
      (RandomValueIOC.init (-1)).period = -1 :=
  c6_nonpositive_period_clamped (-1) (by norm_num)

end SubscriberTkUI

namespace CaprotoSubscriber

/-! ### Lemmas for the caproto subscriber -/

/-- **C7**: once `stop()` has removed this subscriber's `_callback` from
the caproto subscription, no number of further pushed events ever invokes
the removed callback again. -/
theorem c7_unsubscribed_callback_never_invoked (s : State)
    (registry : List ℕ) (hsub : s.subPresent = true) (n : ℕ) :
    s.cbId ∉ publishSeq (stop s registry).2 n := by
  have hreg : (stop s registry).2 = removeCallback registry s.cbId := by
    simp [stop, hsub]
  rw [hreg]
  induction n with
  | zero => simp [publishSeq]
  | succ n ih =>
    intro hmem
    rcases List.mem_append.mp (by simpa [publishSeq] using hmem) with h | h
    · simp [publishInvoked, removeCallback] at h
    · exact ih h

/-- Witness for C7: callback 5, registry `[5, 7]`, two further events. -/
theorem c7_unsubscribed_callback_never_invoked_witness :
    (5 : ℕ) ∉ publishSeq (stop ⟨5, true, true⟩ [5, 7]).2 2 :=
  c7_unsubscribed_callback_never_invoked ⟨5, true, true⟩ [5, 7] rfl 2

/-- **C9**: `read_now` is total at the public interface: for every channel
state and every boundary outcome it returns normally — `None` both when no
channel exists yet (before `start()`) and when the underlying protocol
read raises — never propagating an exception to the caller. -/
theorem c9_read_now_total :
    (∀ (c : Bool) (r : Except PyExc ReadResp) (n : ℚ),
       ∃ v, read_nowE c r n = Except.ok v) ∧
    (∀ (r : Except PyExc ReadResp) (n : ℚ),
       read_nowE false r n = Except.ok none) ∧
    (∀ (e : PyExc) (n : ℚ),
       read_nowE true (Except.error e) n = Except.ok none) := by
  refine ⟨?_, ?_, ?_⟩
  · intro c r n
    cases c with
    | false => exact ⟨none, rfl⟩
    | true =>
      cases r with
      | error e => exact ⟨none, rfl⟩
      | ok resp => exact ⟨_, rfl⟩
  · intro r n
    rfl
  · intro e n
    rfl

end CaprotoSubscriber

namespace RandomIOC

/-! ### Lemmas for the standalone caproto server loop -/

/-- Every value the startup loop writes is some draw of the random
stream, unmodified. -/
theorem startupTrace_write {rng : ℕ → ℚ} :
    ∀ (n : ℕ) (v : ℚ), StartupOut.write v ∈ startupTrace rng n →
      ∃ i, v = rng i := by
  intro n
  induction n with
  | zero =>
    intro v h
    simp [startupTrace] at h
  | succ n ih =>
    intro v h
    rcases List.mem_append.mp (by simpa [startupTrace] using h) with h2 | h2
    · exact ih v h2
    · have h3 : v = rng n := by simpa [startupStep] using h2
      exact ⟨n, h3⟩

/-- **C10**: the standalone caproto variant has no enable/disable control:
its production loop starts at IOC startup and each iteration is a total
function of the iteration count alone — it unconditionally writes one
fresh random value and sleeps 0.1 s, with no transition that stops
emission and no cancellation check, so after `n` iterations exactly `n`
writes have been made. -/
theorem c10_startup_loop_unconditional (rng : ℕ → ℚ) (n : ℕ) :
    startupTrace rng (n + 1) = startupTrace rng n ++
      [StartupOut.write (rng n), StartupOut.sleepFor (1 / 10)] ∧
    countWrites (startupTrace rng n) = n := by
  constructor
  · rfl
  · induction n with
    | zero => rfl
    | succ n ih =>
      have h2 : countWrites (startupTrace rng (n + 1)) =
          countWrites (startupTrace rng n) + 1 := by
        simp [startupTrace, startupStep, countWrites, List.countP_append,
          List.countP_cons]
      rw [h2, ih]

end RandomIOC

/-- **C8**: with `random.random()` / `np.random.random()` drawing values
in [0,1) — their library contract; the draw itself is a boundary call —
every Reading the `RandomValueIOC` production loop emits while enabled,
and every value the standalone startup loop writes, lies in [0,1): both
loops pass the drawn value through unmodified. -/
theorem c8_random_sample_in_unit_interval (rng : ℕ → ℚ)
    (h : ∀ n, 0 ≤ rng n ∧ rng n < 1) :
    (∀ (p : ℚ) (acts : List RandomValueIOC.Act) (v : ℚ),
       RandomValueIOC.Out.reading v ∈
         (RandomValueIOC.run rng (RandomValueIOC.init p) acts).2 →
       0 ≤ v ∧ v < 1) ∧
    (∀ (n : ℕ) (v : ℚ),
       RandomIOC.StartupOut.write v ∈ RandomIOC.startupTrace rng n →
       0 ≤ v ∧ v < 1) := by
  constructor
  · intro p acts v hv
    obtain ⟨n, rfl⟩ := RandomValueIOC.run_reading acts _ v hv
    exact h n
  · intro n v hv
    obtain ⟨i, rfl⟩ := RandomIOC.startupTrace_write n v hv
    exact h i

/-- Witness for C8: a concrete run whose one Reading is the draw 1/2. -/
theorem c8_random_sample_in_unit_interval_witness :
    (0 : ℚ) ≤ 1 / 2 ∧ (1 : ℚ) / 2 < 1 :=
  (c8_random_sample_in_unit_interval (fun _ => 1 / 2)
    (fun _ => ⟨by norm_num, by norm_num⟩)).1 1
    [RandomValueIOC.Act.callSet true true, RandomValueIOC.Act.taskStep 0]
    (1 / 2)
    (by
      have he : (RandomValueIOC.run (fun _ => 1 / 2) (RandomValueIOC.init 1)
          [RandomValueIOC.Act.callSet true true,
           RandomValueIOC.Act.taskStep 0]).2 =
          [RandomValueIOC.Out.stateChanged true,
           RandomValueIOC.Out.reading (1 / 2),
           RandomValueIOC.Out.sleepFor 1] := rfl
      rw [he]
      simp)

end PVDemo
